import Mathlib

/-!
Verification development for the HTML_Extractor_Faculty_Scrapping repository.

The Python sources (`extract_html_content.py`, `api.py`) are shallowly
embedded: pure string/URL manipulation is translated directly, the DOM
(BeautifulSoup) is abstracted as explicit node lists and per-iteration
oracle data, and the two traversal loops become fueled state machines.
All definitions are computable so that concrete runs can be settled by
`decide` / `rfl`.
-/

namespace HtmlExtractor

/-! URL model: the subset of `urllib.parse` used by the sources.
`urlparse` splits scheme/netloc/path/query/fragment; `urljoin` covers the
URL shapes exercised by this repository (absolute http(s) URLs,
fragment-only, query-only, root-relative and plain relative references). -/

structure UrlParts where
  scheme : String
  netloc : String
  path : String
  query : String
  fragment : String
deriving Repr, DecidableEq

/-- Structural "starts with" on character lists (used instead of
`String.startsWith`, whose implementation does not reduce in the kernel). -/
def startsWithChars : List Char → List Char → Bool
  | _, [] => true
  | [], _ :: _ => false
  | c :: cs, p :: ps => c = p && startsWithChars cs ps

/-- Kernel-reducible replacement for `String.startsWith`. -/
def strStartsWith (s p : String) : Bool := startsWithChars s.toList p.toList

/-- Kernel-reducible replacement for `String.trim` (Python's `str.strip`). -/
def strTrim (s : String) : String :=
  (((s.toList.dropWhile Char.isWhitespace).reverse.dropWhile
      Char.isWhitespace).reverse).asString

/-- Split a character list at the first occurrence of the (non-empty)
separator: `some (before, after)` or `none` when absent. -/
def breakOn (sep : List Char) : List Char → Option (List Char × List Char)
  | [] => none
  | c :: rest =>
    if startsWithChars (c :: rest) sep && !sep.isEmpty then
      some ([], (c :: rest).drop sep.length)
    else
      match breakOn sep rest with
      | some pq => some (c :: pq.1, pq.2)
      | none => none

/-- Split a string at the first occurrence of `sep`; the second component
is `none` when `sep` does not occur (the prefix-preserving part of
Python's `str.split(sep, 1)`). -/
def splitFirst (s sep : String) : String × Option String :=
  match breakOn sep.toList s.toList with
  | none => (s, none)
  | some pq => (pq.1.asString, some pq.2.asString)

/-- Split a character list at every newline (`str.split('\n')`). -/
def splitLines : List Char → List (List Char)
  | [] => [[]]
  | c :: rest =>
    if c = '\n' then [] :: splitLines rest
    else
      match splitLines rest with
      | [] => [[c]]
      | l :: ls => (c :: l) :: ls

/-- Model of `urllib.parse.urlparse` restricted to the fields the sources
read (`netloc`, `path`, `query`). -/
def urlparse (u : String) : UrlParts :=
  let bf := splitFirst u "#"
  let frag := bf.2.getD ""
  let bq := splitFirst bf.1 "?"
  let query := bq.2.getD ""
  match splitFirst bq.1 "://" with
  | (noScheme, none) =>
      { scheme := "", netloc := "", path := noScheme, query := query, fragment := frag }
  | (s, some rest) =>
      let np := splitFirst rest "/"
      { scheme := s, netloc := np.1,
        path := match np.2 with | none => "" | some p => "/" ++ p,
        query := query, fragment := frag }

/-- Scheme and network location of a base URL, as a prefix string. -/
def schemeNetloc (base : String) : String :=
  (urlparse base).scheme ++ "://" ++ (urlparse base).netloc

/-- Drop the fragment part of a URL. -/
def stripFragment (u : String) : String := (splitFirst u "#").1

/-- Drop query and fragment parts of a URL. -/
def stripQueryFragment (u : String) : String := (splitFirst (stripFragment u) "?").1

/-- Directory part of a path: everything up to and including the last `/`
(empty when the path has no `/`). -/
def dirName (path : String) : String :=
  ((path.toList.reverse.dropWhile (fun c => c ≠ '/')).reverse).asString

/-- Model of `urllib.parse.urljoin` for the reference shapes this
repository produces: absolute http(s) URLs, network-relative `//`,
fragment-only `#...`, query-only `?...`, root-relative `/...` and plain
relative references. -/
def urljoin (base href : String) : String :=
  if href = "" then base
  else if strStartsWith href "http://" || strStartsWith href "https://" then href
  else if strStartsWith href "//" then (urlparse base).scheme ++ ":" ++ href
  else if strStartsWith href "#" then stripFragment base ++ href
  else if strStartsWith href "?" then stripQueryFragment base ++ href
  else if strStartsWith href "/" then schemeNetloc base ++ href
  else
    let d := dirName (urlparse base).path
    schemeNetloc base ++ (if d = "" then "/" else d) ++ href

/-! Character-list scanners standing in for the `re` patterns of the
sources. -/

/-- Case-insensitive "starts with" on character lists. -/
def startsWithCI : List Char → List Char → Bool
  | _, [] => true
  | [], _ :: _ => false
  | c :: cs, p :: ps => (c.toLower = p.toLower) && startsWithCI cs ps

/-- True when some suffix of the list satisfies `p` (models an unanchored
`re.search`). -/
def existsSuffix (p : List Char → Bool) : List Char → Bool
  | [] => p []
  | c :: rest => p (c :: rest) || existsSuffix p rest

/-- Head character is a decimal digit. -/
def digitAfter : List Char → Bool
  | c :: _ => c.isDigit
  | [] => false

/-- Matches `(page|p)=\d+` at the start of the list, case-insensitively. -/
def matchesPageEq (cs : List Char) : Bool :=
  (startsWithCI cs "page=".toList && digitAfter (cs.drop 5)) ||
  (startsWithCI cs "p=".toList && digitAfter (cs.drop 2))

/-- Model of `re.search(r'[?&](page|p)=\d+', s, re.I)`. -/
def hasPageQuery (s : String) : Bool :=
  existsSuffix
    (fun cs => match cs with
      | c :: r => (c = '?' || c = '&') && matchesPageEq r
      | [] => false) s.toList

/-- Matches `/page[_-]?\d+` at the start of the list, case-insensitively. -/
def matchesPageSeg (cs : List Char) : Bool :=
  startsWithCI cs "/page".toList &&
    (let rest := cs.drop 5
     digitAfter rest ||
       (match rest with
        | c :: r => (c = '_' || c = '-') && digitAfter r
        | [] => false))

/-- Model of `re.search(r'/page[_-]?\d+', s, re.I)`. -/
def hasPageSeg (s : String) : Bool :=
  existsSuffix matchesPageSeg s.toList

/-- Substring containment on character lists (Python's `in` on strings). -/
def containsChars (hay needle : List Char) : Bool :=
  existsSuffix (fun cs => startsWithCI cs needle) hay

/-- Model of `re.search(r'^\d+$', s)`: non-empty and all digits. -/
def isAllDigits (s : String) : Bool :=
  s ≠ "" && s.toList.all Char.isDigit

/-! ContentExtractor: embedding of `extract_text_with_inline_links`
(`extract_html_content.py`, lines 109-207).  The parsed, selector-restricted,
script/style-stripped document is abstracted as a flat list of nodes: plain
text chunks and `<a href=...>` anchors (href attribute plus the anchor's
`get_text(strip=True)` text).  Python's per-chunk stripping is mirrored by
`strTrim`. -/

inductive Node where
  | text (s : String)
  | anchor (href : String) (txt : String)
deriving Repr, DecidableEq

structure Link where
  url : String
  text : String
  href : String
deriving Repr, DecidableEq

/-- Skip test of the inline-replacement pass (line 139):
`not href or href.startswith(('javascript:', 'mailto:', 'tel:'))`.
Note `'#'` is absent from this tuple. -/
def isPseudoInline (h : String) : Bool :=
  h = "" || strStartsWith h "javascript:" || strStartsWith h "mailto:" ||
    strStartsWith h "tel:"

/-- Skip test of the separate link collection (line 185):
`not href or href.startswith(('javascript:', 'mailto:', 'tel:', '#'))`. -/
def isSkippedInLinks (h : String) : Bool :=
  h = "" || strStartsWith h "javascript:" || strStartsWith h "mailto:" ||
    strStartsWith h "tel:" || strStartsWith h "#"

/-- Text a node contributes to `soup.get_text` after the inline link pass
(lines 132-159).  When `includeLinks` is false or no base URL is given the
anchors are left in place, so they contribute their visible text. -/
def inlineNodeText (includeLinks : Bool) (baseUrl : Option String) : Node → String
  | .text s => s
  | .anchor href txt =>
    match baseUrl with
    | some base =>
      if includeLinks then
        let h := strTrim href
        let t := strTrim txt
        if isPseudoInline h then t
        else
          let full := urljoin base h
          if t ≠ "" then t ++ " — " ++ full else full
      else strTrim txt
    | none => strTrim txt

/-- The per-node text chunks in document order. -/
def renderPieces (doc : List Node) (includeLinks : Bool) (baseUrl : Option String) :
    List String :=
  doc.map (inlineNodeText includeLinks baseUrl)

/-- Post-processing of `get_text(separator='\n', strip=True)` (lines
159-168): split on newlines, strip each line, drop empties, rejoin. -/
def cleanLines (pieces : List String) : List String :=
  (((splitLines (String.intercalate "\n" pieces).toList).map
      (fun cs => strTrim cs.asString)).filter (fun l => l ≠ ""))

/-- The normalized text of the extraction result. -/
def extractText (doc : List Node) (includeLinks : Bool) (baseUrl : Option String) :
    String :=
  String.intercalate "\n" (cleanLines (renderPieces doc includeLinks baseUrl))

/-- The anchors of the document in order (`soup.find_all('a', href=True)`). -/
def anchorsOf (doc : List Node) : List (String × String) :=
  doc.filterMap (fun n =>
    match n with
    | .anchor h t => some (h, t)
    | .text _ => none)

/-- Link entry built for one anchor in the separate link collection
(lines 181-193); `none` when the anchor is skipped. -/
def linkOfAnchor (base : String) (a : String × String) : Option Link :=
  let h := strTrim a.1
  let t := strTrim a.2
  if isSkippedInLinks h then none
  else some { url := urljoin base h, text := if t ≠ "" then t else h, href := h }

/-- All collected link entries before deduplication, in document order. -/
def rawLinks (doc : List Node) (base : String) : List Link :=
  (anchorsOf doc).filterMap (linkOfAnchor base)

/-- First-seen deduplication by absolute URL (lines 195-202), with the set
of already-seen URLs made explicit. -/
def dedupByUrlAux (seen : List String) : List Link → List Link
  | [] => []
  | l :: rest =>
    if l.url ∈ seen then dedupByUrlAux seen rest
    else l :: dedupByUrlAux (l.url :: seen) rest

/-- First-seen deduplication by absolute URL. -/
def dedupByUrl (ls : List Link) : List Link := dedupByUrlAux [] ls

/-- First link of a list carrying a given absolute URL (the entry whose
text survives first-seen deduplication). -/
def firstWithUrl (u : String) : List Link → Option Link
  | [] => none
  | l :: rest => if l.url = u then some l else firstWithUrl u rest

/-- The separate deduplicated link list of the extraction result (lines
170-202): empty unless links are requested and a base URL is available. -/
def extractLinks (doc : List Node) (includeLinks : Bool) (baseUrl : Option String) :
    List Link :=
  match baseUrl with
  | some base => if includeLinks then dedupByUrl (rawLinks doc base) else []
  | none => []

structure Extracted where
  text : String
  links : List Link
deriving Repr, DecidableEq

/-- Embedding of `extract_text_with_inline_links` over the abstracted
document. -/
def extract_text_with_inline_links (doc : List Node) (includeLinks : Bool)
    (baseUrl : Option String) : Extracted :=
  { text := extractText doc includeLinks baseUrl,
    links := extractLinks doc includeLinks baseUrl }

/-- Rendering of a node when no inline replacement happens (anchors keep
their visible text). -/
def plainNodeText : Node → String
  | .text s => s
  | .anchor _ txt => strTrim txt

/-- The extraction text when no inline replacement is performed. -/
def extractTextPlain (doc : List Node) : String :=
  String.intercalate "\n" (cleanLines (doc.map plainNodeText))

/-! Pagination-link discovery: embedding of `find_pagination_links`
(`extract_html_content.py`, lines 294-364).  The BeautifulSoup container
queries are abstracted: `containerAnchors` are the anchors found inside
containers matching the pagination class/id/role patterns (strategy 1),
`allAnchors` are all anchors of the page (strategy 2). -/

structure Anchor where
  href : String
  txt : String
deriving Repr, DecidableEq

structure PagDoc where
  containerAnchors : List Anchor
  allAnchors : List Anchor
deriving Repr, DecidableEq

/-- Link-text heuristic of strategy 1 (lines 331-336): the lowercased text
contains one of the paging keywords, or is a bare page number. -/
def textSuggestsPaging (t : String) : Bool :=
  let lowered := ((strTrim t).toList.map Char.toLower)
  containsChars lowered "next".toList || containsChars lowered "page".toList ||
  containsChars lowered ">".toList || containsChars lowered "»".toList ||
  containsChars lowered "last".toList || isAllDigits (strTrim t)

/-- Strategy-1 candidate for one container anchor (lines 314-336): resolve,
require same netloc, then accept pagination-shaped URLs or paging-flavoured
link text. -/
def pagCandidate1 (base : String) (a : Anchor) : Option String :=
  let h := strTrim a.href
  if h = "" then none
  else
    let full := urljoin base h
    if (urlparse full).netloc ≠ (urlparse base).netloc then none
    else if hasPageQuery full || hasPageSeg full then some full
    else if textSuggestsPaging a.txt then some full
    else none

/-- Strategy-2 candidate for one page anchor (lines 339-362): resolve,
require same netloc, then require a page-number query on a compatible path,
or a `/page-N` path segment overlapping the base path. -/
def pagCandidate2 (base : String) (a : Anchor) : Option String :=
  let h := strTrim a.href
  if h = "" then none
  else
    let full := urljoin base h
    let parsed := urlparse full
    let basePath := (urlparse base).path
    if parsed.netloc ≠ (urlparse base).netloc then none
    else if hasPageQuery full then
      if parsed.path = basePath || strStartsWith parsed.path basePath ||
          strStartsWith basePath parsed.path then some full
      else none
    else if hasPageSeg parsed.path then
      if containsChars parsed.path.toList basePath.toList ||
          containsChars basePath.toList parsed.path.toList then some full
      else none
    else none

/-- Keep one copy of each URL, modelling the `set` accumulator of
`find_pagination_links` (only membership matters to the claims). -/
def dedupStrKeepFirst (seen : List String) : List String → List String
  | [] => []
  | s :: rest =>
    if s ∈ seen then dedupStrKeepFirst seen rest
    else s :: dedupStrKeepFirst (s :: seen) rest

/-- Embedding of `find_pagination_links`: both strategies' accepted URLs,
deduplicated (the Python `set` loses order; only membership is claimed). -/
def find_pagination_links (doc : PagDoc) (base : String) : List String :=
  dedupStrKeepFirst []
    (doc.containerAnchors.filterMap (pagCandidate1 base) ++
     doc.allAnchors.filterMap (pagCandidate2 base))

/-! Pagination classification: embedding of the mode dispatch at the top of
`extract_all_pages_recursive` (`extract_html_content.py`, lines 1111-1178),
which runs when `use_js` is true and the start page loads.  The
DOM-derived facts are fields of `StartPage`: whether a FacetWP container
exists, whether `data-page` elements exist, the result of
`find_next_page_button` (its `href` attribute, `""` when absent), and
whether pagination containers hold numbered links or next/prev controls
with `href` in `['#', 'javascript:void(0)']`. -/

structure StartPage where
  facetwp : Bool
  dataPageButtons : Bool
  nextButton : Option String
  numberedHashLinks : Bool
  nextPrevHashButtons : Bool
deriving Repr, DecidableEq

inductive PagMode where
  | controlDriven
  | urlBased
deriving Repr, DecidableEq

/-- The classification decision: `controlDriven` means the code dispatches
to `extract_with_js_pagination` (button clicking); `urlBased` means it
falls through to the queue-based URL traversal. -/
def classify_pagination (pg : StartPage) (start_url : String) : PagMode :=
  if pg.facetwp || (pg.dataPageButtons && pg.nextButton.isSome) then .controlDriven
  else if pg.numberedHashLinks || pg.nextPrevHashButtons then .controlDriven
  else
    match pg.nextButton with
    | some href =>
      if href = "" || href = "#" || href = "javascript:void(0)" then .controlDriven
      else
        let nextUrl := urljoin start_url href
        if (urlparse nextUrl).path = (urlparse start_url).path &&
            (urlparse nextUrl).query = (urlparse start_url).query then .controlDriven
        else .urlBased
    | none => .urlBased

/-! Aggregation: embedding of `deduplicate_links` and the link aggregation
of `process_extraction` (`api.py`, lines 143-163 and 227-249). -/

structure PageResult where
  url : String
  page_number : Nat
  text : String
  links : List Link
deriving Repr, DecidableEq

/-- The deduplication key actually used by `deduplicate_links`
(line 153): `f"{link.get('text','')} — {link.get('url','')}"`. -/
def dedupKey (l : Link) : String := l.text ++ " — " ++ l.url

/-- Embedding of `deduplicate_links` (dict branch), with the seen-set made
explicit. -/
def deduplicate_links_aux (seen : List String) : List Link → List Link
  | [] => []
  | l :: rest =>
    if dedupKey l ∈ seen then deduplicate_links_aux seen rest
    else l :: deduplicate_links_aux (dedupKey l :: seen) rest

/-- Embedding of `deduplicate_links`. -/
def deduplicate_links (ls : List Link) : List Link := deduplicate_links_aux [] ls

/-- Session-wide link aggregation of `process_extraction` (lines 227-239):
concatenate the per-page link lists, then deduplicate. -/
def aggregate_links (includeLinks : Bool) (pages : List PageResult) : List Link :=
  if includeLinks then deduplicate_links (pages.flatMap (fun p => p.links))
  else deduplicate_links []

/-! Control-driven traversal: embedding of the loop of
`extract_with_js_pagination` (`extract_html_content.py`, lines 436-1055).
The rendered browser session is the environment: per iteration (indexed by
the pre-increment `page_count`) it yields the extracted text and links, the
outcome of the DOM-driven end-of-data checks between the append and the
click (lines 572-870), and the outcome of the click attempt (lines
877-1047).  The loop state carries exactly the Python locals. -/

inductive StopReason where
  | cancelled
  | limitReached
  | contentStable
  | lastPageDetected
  | noNextControl
  | nextDisabled
  | dataPageEnd
  | clickNotClicked
  | activationFailed
  | queueEmpty
deriving Repr, DecidableEq

/-- Outcome of the DOM checks between appending a page and clicking:
`proceed` reaches the click attempt; the stop cases are the breaks of the
last-page detection (lines 572-663), the missing next control (line 762),
the disabled next control (line 855) and the FacetWP `data-page` end check
(lines 859-870). -/
inductive NavCheck where
  | proceed
  | stopLastPage
  | stopNoNext
  | stopDisabled
  | stopDataPage
deriving Repr, DecidableEq

/-- Outcome of the click attempt: `clicked` (all waits succeed, counters
reset at lines 1037-1039), `notClicked` (no strategy clicked, line 1003),
`failed` (an exception reached the handler at lines 1041-1047). -/
inductive ClickOutcome where
  | clicked
  | notClicked
  | failed
deriving Repr, DecidableEq

structure JsEnv where
  cancelled : Nat → Bool
  pageText : Nat → String
  pageLinks : Nat → List Link
  nav : Nat → NavCheck
  click : Nat → ClickOutcome

structure JsConfig where
  start_url : String
  has_pagination : Bool
  max_pages : Nat
deriving Repr

/-- `max_pages_limit = max_pages if has_pagination else 1000` (line 447). -/
def maxPagesLimit (cfg : JsConfig) : Nat :=
  if cfg.has_pagination then cfg.max_pages else 1000

structure JsState where
  page_count : Nat
  pages : List PageResult
  consecutive_no_next : Nat
  previous_content_hash : Option String
  consecutive_same_content : Nat
deriving Repr, DecidableEq

/-- The bounded-prefix fingerprint of the extracted text (lines 546-548):
the first 2000 characters.  Python hashes the prefix, and equal prefixes
give equal hashes. -/
def fingerprint (t : String) : String := (t.toList.take 2000).asString

/-- The `PageResult` appended at lines 558-563. -/
def jsPage (cfg : JsConfig) (pc : Nat) (t : String) (links : List Link) :
    PageResult :=
  { url := cfg.start_url ++ " (page " ++ toString pc ++ ")",
    page_number := pc, text := t, links := links }

/-- The nav checks and click attempt of one iteration: `Sum.inl` continues
the loop with the updated state, `Sum.inr` leaves it. -/
def jsNavClick (env : JsEnv) (idx : Nat) (st : JsState) :
    JsState ⊕ (JsState × StopReason) :=
  match env.nav idx with
  | .stopLastPage => .inr (st, .lastPageDetected)
  | .stopNoNext => .inr (st, .noNextControl)
  | .stopDisabled => .inr (st, .nextDisabled)
  | .stopDataPage => .inr (st, .dataPageEnd)
  | .proceed =>
    match env.click idx with
    | .clicked => .inl { st with consecutive_no_next := 0, consecutive_same_content := 0 }
    | .notClicked => .inr (st, .clickNotClicked)
    | .failed =>
      if 3 ≤ st.consecutive_no_next + 1 then
        .inr ({ st with consecutive_no_next := st.consecutive_no_next + 1 },
          .activationFailed)
      else .inl { st with consecutive_no_next := st.consecutive_no_next + 1 }

/-- One loop iteration after the cancellation check: increment `page_count`
(line 526), the (dead) inner limit check (line 529), extraction, the
duplicate-hash guard (lines 544-556), the append (lines 558-563), then the
nav checks and click. -/
def jsStep (env : JsEnv) (cfg : JsConfig) (st : JsState) :
    JsState ⊕ (JsState × StopReason) :=
  let idx := st.page_count
  let pc := st.page_count + 1
  if cfg.has_pagination && decide (maxPagesLimit cfg < pc) then
    .inr ({ st with page_count := pc }, .limitReached)
  else
    let t := env.pageText idx
    if t = "" then jsNavClick env idx { st with page_count := pc }
    else
      let fp := fingerprint t
      if st.previous_content_hash = some fp then
        if 2 ≤ st.consecutive_same_content + 1 then
          .inr ({ st with
                  page_count := pc
                  consecutive_same_content := st.consecutive_same_content + 1 },
            .contentStable)
        else
          jsNavClick env idx
            { st with
              page_count := pc
              consecutive_same_content := st.consecutive_same_content + 1
              pages := st.pages ++ [jsPage cfg pc t (env.pageLinks idx)] }
      else
        jsNavClick env idx
          { st with
            page_count := pc
            consecutive_same_content := 0
            previous_content_hash := some fp
            pages := st.pages ++ [jsPage cfg pc t (env.pageLinks idx)] }

/-- The fueled loop `while page_count < max_pages_limit` with the
cancellation check at the top of each iteration (lines 520-524); the fuel
argument only bounds recursion, `maxPagesLimit` many steps always
suffice. -/
def jsRun (env : JsEnv) (cfg : JsConfig) : Nat → JsState → JsState × StopReason
  | 0, st => (st, .limitReached)
  | fuel + 1, st =>
    if st.page_count < maxPagesLimit cfg then
      if env.cancelled st.page_count then (st, .cancelled)
      else
        match jsStep env cfg st with
        | .inr fin => fin
        | .inl st' => jsRun env cfg fuel st'
    else (st, .limitReached)

/-- Embedding of `extract_with_js_pagination`: run the loop from the
initial state and return the collected pages with the stop reason. -/
def extract_with_js_pagination (env : JsEnv) (cfg : JsConfig) :
    List PageResult × StopReason :=
  let r := jsRun env cfg (maxPagesLimit cfg)
    { page_count := 0, pages := [], consecutive_no_next := 0,
      previous_content_hash := none, consecutive_same_content := 0 }
  (r.1.pages, r.2)

/-! URL-addressable traversal: embedding of the queue loop of
`extract_all_pages_recursive` (`extract_html_content.py`, lines
1180-1274).  The page loader is the environment (`none` models a load
failure); a loaded page carries the extractor node list and the
pagination-discovery data. -/

structure Page where
  nodes : List Node
  pag : PagDoc
deriving Repr, DecidableEq

structure UrlEnv where
  load : String → Option Page
  cancelled : Nat → Bool

structure UrlConfig where
  start_url : String
  include_links : Bool
  has_pagination : Bool
  max_pages : Nat
deriving Repr

/-- `max_iterations = max_pages if has_pagination else 1000` (line 1186). -/
def maxIter (cfg : UrlConfig) : Nat :=
  if cfg.has_pagination then cfg.max_pages else 1000

structure UrlState where
  pages : List PageResult
  visited : List String
  queue : List String
  page_count : Nat
  iteration : Nat
deriving Repr, DecidableEq

/-- One iteration of the queue loop after the guard and cancellation
checks: pop (line 1196), the visited guard (line 1199), the (dead) inner
limit check (line 1206), load, extract, append, discover and filter
pagination links, enqueue unseen ones (lines 1214-1268). -/
def urlStep (env : UrlEnv) (cfg : UrlConfig) (st : UrlState) :
    UrlState ⊕ (UrlState × StopReason) :=
  match st.queue with
  | [] => .inr (st, .queueEmpty)
  | url :: rest =>
    let it := st.iteration + 1
    if url ∈ st.visited then .inl { st with queue := rest, iteration := it }
    else
      let visited' := url :: st.visited
      let pc := st.page_count + 1
      if cfg.has_pagination && decide (maxIter cfg < pc) then
        .inr ({ st with
                queue := rest
                iteration := it
                visited := visited'
                page_count := pc }, .limitReached)
      else
        match env.load url with
        | none =>
          .inl { st with
                 queue := rest
                 iteration := it
                 visited := visited'
                 page_count := pc }
        | some page =>
          let ext := extract_text_with_inline_links page.nodes cfg.include_links
            (some url)
          if ext.text = "" then
            .inl { st with
                   queue := rest
                   iteration := it
                   visited := visited'
                   page_count := pc }
          else
            let pagLinks := find_pagination_links page.pag url
            let valid := pagLinks.filter (fun pu =>
              (urlparse pu).path ≠ (urlparse url).path ||
              (urlparse pu).query ≠ (urlparse url).query)
            let newQueue := valid.foldl (fun q pu =>
              if pu ∈ visited' ∨ pu ∈ q then q else q ++ [pu]) rest
            .inl { pages := st.pages ++ [⟨url, pc, ext.text, ext.links⟩]
                   visited := visited'
                   queue := newQueue
                   page_count := pc
                   iteration := it }

/-- The fueled loop `while urls_to_visit and iteration < max_iterations`
with the cancellation check at the top of each iteration (lines
1189-1193). -/
def urlRun (env : UrlEnv) (cfg : UrlConfig) : Nat → UrlState → UrlState × StopReason
  | 0, st => (st, .limitReached)
  | fuel + 1, st =>
    if st.queue = [] then (st, .queueEmpty)
    else if maxIter cfg ≤ st.iteration then (st, .limitReached)
    else if env.cancelled st.iteration then (st, .cancelled)
    else
      match urlStep env cfg st with
      | .inr fin => fin
      | .inl st' => urlRun env cfg fuel st'

/-- Embedding of the queue-based part of `extract_all_pages_recursive`:
run from the seeded queue and return the collected pages with the stop
reason. -/
def extract_all_pages_recursive (env : UrlEnv) (cfg : UrlConfig) :
    List PageResult × StopReason :=
  let r := urlRun env cfg (maxIter cfg)
    { pages := [], visited := [], queue := [cfg.start_url], page_count := 0,
      iteration := 0 }
  (r.1.pages, r.2)

/-- State reached by one loop step, whether the loop continues or stops. -/
def stepStateJs : JsState ⊕ (JsState × StopReason) → JsState
  | .inl s => s
  | .inr sr => sr.1

/-- State reached by one queue-loop step, whether it continues or stops. -/
def stepStateUrl : UrlState ⊕ (UrlState × StopReason) → UrlState
  | .inl s => s
  | .inr sr => sr.1

/-- Invariant of the collected page list: page numbers strictly increase
and stay between 1 and the current page counter. -/
def pagesInv (pages : List PageResult) (counter : Nat) : Prop :=
  List.Chain' (fun a b => a.page_number < b.page_number) pages ∧
  ∀ p ∈ pages, 1 ≤ p.page_number ∧ p.page_number ≤ counter

/-- Control-driven session on which every click succeeds but the rendered
content never changes (a "next" control that silently no-ops). -/
def envStall : JsEnv :=
  { cancelled := fun _ => false
    pageText := fun _ => "Same page text"
    pageLinks := fun _ => []
    nav := fun _ => .proceed
    click := fun _ => .clicked }

/-- Five-page cap for the stalled session. -/
def cfgStall : JsConfig := ⟨"https://a.test/list", true, 5⟩

/-- Control-driven session whose first and third snapshots extract empty
text, with distinct content on the second and fourth. -/
def envGap : JsEnv :=
  { cancelled := fun _ => false
    pageText := fun i => if i = 1 then "B" else if i = 3 then "D" else ""
    pageLinks := fun _ => []
    nav := fun i => if i = 3 then .stopNoNext else .proceed
    click := fun _ => .clicked }

/-- Generous cap for the gap session. -/
def cfgGap : JsConfig := ⟨"https://a.test/list", true, 10⟩

/-- Session whose job is flagged cancelled at every check. -/
def envCancel : JsEnv :=
  { cancelled := fun _ => true
    pageText := fun _ => "text"
    pageLinks := fun _ => []
    nav := fun _ => .proceed
    click := fun _ => .clicked }

/-- Small cap for the cancelled control-driven session. -/
def cfgCancel : JsConfig := ⟨"https://a.test/list", true, 3⟩

/-- URL-mode environment whose job is flagged cancelled at every check. -/
def uenvCancel : UrlEnv :=
  { load := fun _ => some ⟨[.text "body"], ⟨[], []⟩⟩
    cancelled := fun _ => true }

/-- Small cap for the cancelled URL-mode traversal. -/
def ucfgCancel : UrlConfig := ⟨"https://a.test/list", true, true, 3⟩

/-- A mid-traversal control-driven state that already collected one page. -/
def stPartialJs : JsState :=
  { page_count := 1
    pages := [⟨"https://a.test/list (page 1)", 1, "first", []⟩]
    consecutive_no_next := 0
    previous_content_hash := some "first"
    consecutive_same_content := 0 }

/-- A mid-traversal URL-mode state that already collected one page. -/
def stPartialUrl : UrlState :=
  { pages := [⟨"https://a.test/list", 1, "first", []⟩]
    visited := ["https://a.test/list"]
    queue := ["https://a.test/list?page=2"]
    page_count := 1
    iteration := 1 }

/-- URL-mode environment where every load fails (used to exercise the
caps on a concrete run). -/
def uenvNone : UrlEnv :=
  { load := fun _ => none
    cancelled := fun _ => false }

/-- Three-page cap for URL-mode witnesses. -/
def ucfgSmall : UrlConfig := ⟨"https://a.test/list", true, true, 3⟩

/-! Helper lemmas. -/

lemma mem_dedupStrKeepFirst {seen : List String} {l : List String} {u : String}
    (h : u ∈ dedupStrKeepFirst seen l) : u ∈ l := by
  induction l generalizing seen with
  | nil => rw [dedupStrKeepFirst] at h; exact absurd h (List.not_mem_nil u)
  | cons s rest ih =>
    rw [dedupStrKeepFirst] at h
    split at h
    · exact List.mem_cons_of_mem _ (ih h)
    · rcases List.mem_cons.mp h with h' | h'
      · exact h' ▸ List.mem_cons_self _ _
      · exact List.mem_cons_of_mem _ (ih h')

lemma pagCandidate1_netloc {base : String} {a : Anchor} {u : String}
    (h : pagCandidate1 base a = some u) :
    (urlparse u).netloc = (urlparse base).netloc := by
  simp only [pagCandidate1] at h
  split_ifs at h <;> simp_all

lemma pagCandidate2_netloc {base : String} {a : Anchor} {u : String}
    (h : pagCandidate2 base a = some u) :
    (urlparse u).netloc = (urlparse base).netloc := by
  simp only [pagCandidate2] at h
  split_ifs at h <;> simp_all

/-! Claim theorems. -/

/-- C10.  Every URL returned by pagination-link discovery
(`find_pagination_links`) has the same host (netloc) as the page it was
discovered on; a link to a different domain is never returned, for every
abstracted document and base URL. -/
theorem find_pagination_links_same_netloc (doc : PagDoc) (base u : String)
    (h : u ∈ find_pagination_links doc base) :
    (urlparse u).netloc = (urlparse base).netloc := by
  unfold find_pagination_links at h
  rcases List.mem_append.mp (mem_dedupStrKeepFirst h) with h' | h'
  · obtain ⟨a, _, ha⟩ := List.mem_filterMap.mp h'
    exact pagCandidate1_netloc ha
  · obtain ⟨a, _, ha⟩ := List.mem_filterMap.mp h'
    exact pagCandidate2_netloc ha

/-- Witness for C10: a realistic crawl page whose `?page=2` anchor is
discovered, and whose discovered URL indeed keeps the host `a.test`. -/
theorem find_pagination_links_same_netloc_witness :
    "https://a.test/list?page=2" ∈
      find_pagination_links ⟨[], [⟨"?page=2", "2"⟩]⟩ "https://a.test/list?page=1" ∧
    (urlparse "https://a.test/list?page=2").netloc =
      (urlparse "https://a.test/list?page=1").netloc :=
  ⟨by decide,
   find_pagination_links_same_netloc ⟨[], [⟨"?page=2", "2"⟩]⟩
     "https://a.test/list?page=1" "https://a.test/list?page=2" (by decide)⟩

/-- C9.  When `includeLinks` is false or no base URL is supplied,
`extract_text_with_inline_links` performs no inline anchor replacement
(anchors contribute just their visible text) and returns an empty links
list. -/
theorem extract_no_links_mode (doc : List Node) (includeLinks : Bool)
    (baseUrl : Option String) (h : includeLinks = false ∨ baseUrl = none) :
    extract_text_with_inline_links doc includeLinks baseUrl =
      { text := extractTextPlain doc, links := [] } := by
  have hnode : ∀ n ∈ doc, inlineNodeText includeLinks baseUrl n = plainNodeText n := by
    intro n _
    cases n with
    | text s => rfl
    | anchor href txt =>
      rcases h with h | h
      · subst h; cases baseUrl <;> rfl
      · subst h; rfl
  have hmap : doc.map (inlineNodeText includeLinks baseUrl) = doc.map plainNodeText :=
    List.map_congr_left hnode
  have hlinks : extractLinks doc includeLinks baseUrl = [] := by
    rcases h with h | h
    · subst h; unfold extractLinks; cases baseUrl <;> simp
    · subst h; rfl
  simp [extract_text_with_inline_links, extractText, extractTextPlain, renderPieces,
    hmap, hlinks]

/-- Witness for C9: with `includeLinks = false` a page holding an anchor
yields the unreplaced text and no links. -/
theorem extract_no_links_mode_witness :
    extract_text_with_inline_links [Node.text "Hi", Node.anchor "/x" "A"] false
        (some "https://a.test") =
      { text := extractTextPlain [Node.text "Hi", Node.anchor "/x" "A"], links := [] } :=
  extract_no_links_mode [Node.text "Hi", Node.anchor "/x" "A"] false
    (some "https://a.test") (Or.inl rfl)

/-- C5.  The code diverges from the claim on fragment anchors: the inline
pass's skip tuple (line 139) omits `'#'`, so `<a href="#top">Top</a>` is
replaced by `"Top — https://e.test/p#top"` instead of by its visible text
`"Top"` — although the code's own comment says "For anchor links (#), just
keep the text" and the separate link collection does skip `'#'`. -/
theorem fragment_anchor_inline_divergence :
    inlineNodeText true (some "https://e.test/p") (Node.anchor "#top" "Top") =
      "Top — https://e.test/p#top" ∧
    "Top — https://e.test/p#top" ≠ "Top" ∧
    isSkippedInLinks (strTrim "#top") = true ∧
    isPseudoInline (strTrim "#top") = false := by
  refine ⟨by decide, by decide, by decide, by decide⟩

/-- C6.  Classification of the loaded start page: a next control with
`href="#"` is always classified control-driven; a next control whose
resolved target keeps the current path and query is always classified
control-driven; a plain page (no FacetWP, no `data-page` buttons, no
`href="#"` pagination controls) whose next control resolves to a different
query is classified url-addressable. -/
theorem classify_pagination_next_control :
    (∀ (pg : StartPage) (start_url : String),
        pg.nextButton = some "#" →
        classify_pagination pg start_url = .controlDriven) ∧
    (∀ (pg : StartPage) (start_url href : String),
        pg.nextButton = some href →
        (urlparse (urljoin start_url href)).path = (urlparse start_url).path →
        (urlparse (urljoin start_url href)).query = (urlparse start_url).query →
        classify_pagination pg start_url = .controlDriven) ∧
    (∀ (pg : StartPage) (start_url href : String),
        pg.facetwp = false → pg.dataPageButtons = false →
        pg.numberedHashLinks = false → pg.nextPrevHashButtons = false →
        pg.nextButton = some href →
        href ≠ "" → href ≠ "#" → href ≠ "javascript:void(0)" →
        (urlparse (urljoin start_url href)).query ≠ (urlparse start_url).query →
        classify_pagination pg start_url = .urlBased) := by
  refine ⟨?_, ?_, ?_⟩
  · intro pg s h
    unfold classify_pagination
    rw [h]
    split_ifs <;> simp_all
  · intro pg s href h hp hq
    unfold classify_pagination
    rw [h]
    split_ifs <;> simp_all
  · intro pg s href hf hd h1 h2 h hne1 hne2 hne3 hq
    unfold classify_pagination
    rw [h]
    split_ifs <;> simp_all

/-- Witness for C6: concrete classifications for the three spec scenarios
(`href="#"`, same-URL next control, `?page=1` → `?page=2` next control). -/
theorem classify_pagination_next_control_witness :
    classify_pagination ⟨false, false, some "#", false, false⟩
      "https://a.test/list" = .controlDriven ∧
    classify_pagination ⟨false, false, some "?page=1", false, false⟩
      "https://a.test/list?page=1" = .controlDriven ∧
    classify_pagination ⟨false, false, some "?page=2", false, false⟩
      "https://a.test/list?page=1" = .urlBased :=
  ⟨classify_pagination_next_control.1 _ _ rfl,
   classify_pagination_next_control.2.1 _ "https://a.test/list?page=1" "?page=1"
     rfl (by decide) (by decide),
   classify_pagination_next_control.2.2 _ "https://a.test/list?page=1" "?page=2"
     rfl rfl rfl rfl rfl (by decide) (by decide) (by decide) (by decide)⟩

/-- Occurrence count of a deduplication key in the output of
`deduplicate_links_aux`: one when the key is fresh and present, zero
otherwise. -/
lemma deduplicate_links_aux_key_count (k : String) :
    ∀ (ls : List Link) (seen : List String),
      ((deduplicate_links_aux seen ls).map dedupKey).count k =
        if k ∉ seen ∧ k ∈ ls.map dedupKey then 1 else 0 := by
  intro ls
  induction ls with
  | nil => intro seen; simp [deduplicate_links_aux]
  | cons l rest ih =>
    intro seen
    rw [deduplicate_links_aux]
    by_cases hm : dedupKey l ∈ seen
    · rw [if_pos hm, ih seen]
      by_cases hk : k = dedupKey l
      · subst hk; simp [hm]
      · simp [List.mem_cons, hk]
    · rw [if_neg hm]
      simp only [List.map_cons, List.count_cons, ih (dedupKey l :: seen)]
      by_cases hk : k = dedupKey l
      · subst hk; simp [hm]
      · simp [List.mem_cons, hk, Ne.symm hk]

/-- C4 (amended).  Aggregated links are deduplicated by the composite key
`"{text} — {url}"`, not by URL alone: in every persisted result the keys
of the links list are pairwise distinct, and each key occurs exactly once
when it occurs on some traversed page. -/
theorem aggregate_links_key_count (includeLinks : Bool) (pages : List PageResult)
    (k : String) :
    ((aggregate_links includeLinks pages).map dedupKey).count k =
      if includeLinks = true ∧ k ∈ (pages.flatMap fun p => p.links).map dedupKey
      then 1 else 0 := by
  unfold aggregate_links deduplicate_links
  cases includeLinks with
  | false => simp [deduplicate_links_aux]
  | true =>
    rw [if_pos rfl, deduplicate_links_aux_key_count]
    by_cases hk : k ∈ (pages.flatMap fun p => p.links).map dedupKey <;>
      simp [hk]

/-- C4 counterexample.  Two pages carrying the same absolute URL with
different anchor texts survive aggregation as two entries sharing that
URL, refuting deduplication by absolute URL. -/
theorem aggregate_links_same_url_twice :
    ((aggregate_links true
        [⟨"https://a.test/list", 1, "one",
          [⟨"https://a.test/more", "More", "/more"⟩]⟩,
         ⟨"https://a.test/list?page=2", 2, "two",
          [⟨"https://a.test/more", "Meer", "/more"⟩]⟩]).map fun l => l.url) =
      ["https://a.test/more", "https://a.test/more"] ∧
    ¬ ((aggregate_links true
        [⟨"https://a.test/list", 1, "one",
          [⟨"https://a.test/more", "More", "/more"⟩]⟩,
         ⟨"https://a.test/list?page=2", 2, "two",
          [⟨"https://a.test/more", "Meer", "/more"⟩]⟩]).map fun l => l.url).Nodup := by
  refine ⟨by decide, by decide⟩

lemma dedupByUrlAux_filter_of_seen {u : String} :
    ∀ {ls : List Link} {seen : List String}, u ∈ seen →
      (dedupByUrlAux seen ls).filter (fun l => decide (l.url = u)) = [] := by
  intro ls
  induction ls with
  | nil => intro seen _; simp [dedupByUrlAux]
  | cons l rest ih =>
    intro seen hu
    rw [dedupByUrlAux]
    by_cases hm : l.url ∈ seen
    · rw [if_pos hm]; exact ih hu
    · rw [if_neg hm]
      have hne : l.url ≠ u := fun e => hm (e ▸ hu)
      simp only [List.filter_cons, decide_eq_true_eq, hne, if_false]
      exact ih (List.mem_cons_of_mem _ hu)

lemma dedupByUrlAux_filter_of_not_seen {u : String} :
    ∀ {ls : List Link} {seen : List String}, u ∉ seen →
      (dedupByUrlAux seen ls).filter (fun l => decide (l.url = u)) =
        (firstWithUrl u ls).toList := by
  intro ls
  induction ls with
  | nil => intro seen _; simp [dedupByUrlAux, firstWithUrl]
  | cons l rest ih =>
    intro seen hu
    rw [dedupByUrlAux, firstWithUrl]
    by_cases he : l.url = u
    · subst he
      rw [if_neg hu, if_pos rfl]
      simp only [List.filter_cons, decide_eq_true_eq, if_pos rfl]
      rw [dedupByUrlAux_filter_of_seen (List.mem_cons_self _ _)]
      simp
    · by_cases hm : l.url ∈ seen
      · rw [if_pos hm, if_neg he]; exact ih hu
      · rw [if_neg hm, if_neg he]
        simp only [List.filter_cons, decide_eq_true_eq, he, if_false]
        exact ih (by simp [List.mem_cons, hu, Ne.symm he])

lemma firstWithUrl_isSome {u : String} :
    ∀ {ls : List Link}, (∃ l ∈ ls, l.url = u) → (firstWithUrl u ls).isSome = true := by
  intro ls
  induction ls with
  | nil => rintro ⟨l, hl, _⟩; exact absurd hl (List.not_mem_nil l)
  | cons l rest ih =>
    rintro ⟨l', hl', he⟩
    rw [firstWithUrl]
    by_cases h : l.url = u
    · rw [if_pos h]; rfl
    · rw [if_neg h]
      rcases List.mem_cons.mp hl' with rfl | hmem
      · exact absurd he h
      · exact ih ⟨l', hmem, he⟩

lemma not_pseudo_of_not_skipped {h : String} (hs : isSkippedInLinks h = false) :
    isPseudoInline h = false := by
  simp only [isSkippedInLinks, Bool.or_eq_false_iff] at hs
  simp only [isPseudoInline, Bool.or_eq_false_iff]
  tauto

lemma rawLinks_mem {doc : List Node} {base h t : String}
    (hmem : Node.anchor h t ∈ doc)
    (hsk : isSkippedInLinks (strTrim h) = false) :
    ({ url := urljoin base (strTrim h),
       text := if strTrim t ≠ "" then strTrim t else strTrim h,
       href := strTrim h } : Link) ∈ rawLinks doc base := by
  unfold rawLinks
  apply List.mem_filterMap.mpr
  refine ⟨(h, t), ?_, ?_⟩
  · unfold anchorsOf
    exact List.mem_filterMap.mpr ⟨Node.anchor h t, hmem, rfl⟩
  · simp [linkOfAnchor, hsk]

lemma inline_anchor_replacement {base h t : String}
    (hp : isPseudoInline (strTrim h) = false) (ht : strTrim t ≠ "") :
    inlineNodeText true (some base) (Node.anchor h t) =
      strTrim t ++ " — " ++ urljoin base (strTrim h) := by
  simp [inlineNodeText, hp, ht]

/-- C8.  Two anchors resolving to the same absolute URL (with different
non-empty texts) yield links that first-seen deduplication collapses to
exactly the first entry with that URL, while both inline replacement
strings stay present in the rendered text pieces. -/
theorem extract_links_dedup_first_seen (doc : List Node)
    (base u h₁ t₁ h₂ t₂ : String)
    (hm₁ : Node.anchor h₁ t₁ ∈ doc) (hm₂ : Node.anchor h₂ t₂ ∈ doc)
    (hs₁ : isSkippedInLinks (strTrim h₁) = false)
    (hs₂ : isSkippedInLinks (strTrim h₂) = false)
    (hu₁ : urljoin base (strTrim h₁) = u) (hu₂ : urljoin base (strTrim h₂) = u)
    (ht₁ : strTrim t₁ ≠ "") (ht₂ : strTrim t₂ ≠ "")
    (_hne : strTrim t₁ ≠ strTrim t₂) :
    (extractLinks doc true (some base)).filter (fun l => decide (l.url = u)) =
      (firstWithUrl u (rawLinks doc base)).toList ∧
    (firstWithUrl u (rawLinks doc base)).isSome = true ∧
    (strTrim t₁ ++ " — " ++ u) ∈ renderPieces doc true (some base) ∧
    (strTrim t₂ ++ " — " ++ u) ∈ renderPieces doc true (some base) := by
  refine ⟨?_, ?_, ?_, ?_⟩
  · show (dedupByUrl (rawLinks doc base)).filter _ = _
    exact dedupByUrlAux_filter_of_not_seen (List.not_mem_nil u)
  · exact firstWithUrl_isSome ⟨_, rawLinks_mem hm₁ hs₁, hu₁⟩
  · rw [← hu₁, ← inline_anchor_replacement (not_pseudo_of_not_skipped hs₁) ht₁]
    exact List.mem_map_of_mem _ hm₁
  · rw [← hu₂, ← inline_anchor_replacement (not_pseudo_of_not_skipped hs₂) ht₂]
    exact List.mem_map_of_mem _ hm₂

/-- Witness for C8: the two-anchor page `/more`-"More" / `/more`-"Else"
yields one deduplicated entry (the first) and both inline strings. -/
theorem extract_links_dedup_first_seen_witness :
    ((extractLinks [Node.anchor "/more" "More", Node.anchor "/more" "Else"] true
        (some "https://a.test/list")).filter
        (fun l => decide (l.url = "https://a.test/more")) =
      (firstWithUrl "https://a.test/more"
        (rawLinks [Node.anchor "/more" "More", Node.anchor "/more" "Else"]
          "https://a.test/list")).toList) ∧
    (firstWithUrl "https://a.test/more"
      (rawLinks [Node.anchor "/more" "More", Node.anchor "/more" "Else"]
        "https://a.test/list")).isSome = true ∧
    (strTrim "More" ++ " — " ++ "https://a.test/more") ∈
      renderPieces [Node.anchor "/more" "More", Node.anchor "/more" "Else"] true
        (some "https://a.test/list") ∧
    (strTrim "Else" ++ " — " ++ "https://a.test/more") ∈
      renderPieces [Node.anchor "/more" "More", Node.anchor "/more" "Else"] true
        (some "https://a.test/list") :=
  extract_links_dedup_first_seen
    [Node.anchor "/more" "More", Node.anchor "/more" "Else"]
    "https://a.test/list" "https://a.test/more" "/more" "More" "/more" "Else"
    (by decide) (by decide) (by decide) (by decide) (by decide) (by decide)
    (by decide) (by decide) (by decide)

lemma jsNavClick_state (env : JsEnv) (idx : Nat) (st : JsState) :
    (stepStateJs (jsNavClick env idx st)).pages = st.pages ∧
    (stepStateJs (jsNavClick env idx st)).page_count = st.page_count := by
  cases hnav : env.nav idx with
  | stopLastPage => simp [jsNavClick, hnav, stepStateJs]
  | stopNoNext => simp [jsNavClick, hnav, stepStateJs]
  | stopDisabled => simp [jsNavClick, hnav, stepStateJs]
  | stopDataPage => simp [jsNavClick, hnav, stepStateJs]
  | proceed =>
    cases hc : env.click idx with
    | clicked => simp [jsNavClick, hnav, hc, stepStateJs]
    | notClicked => simp [jsNavClick, hnav, hc, stepStateJs]
    | failed =>
      by_cases h3 : 3 ≤ st.consecutive_no_next + 1 <;>
        simp [jsNavClick, hnav, hc, h3, stepStateJs]

lemma jsStep_state (env : JsEnv) (cfg : JsConfig) (st : JsState) :
    (stepStateJs (jsStep env cfg st)).page_count = st.page_count + 1 ∧
    ((stepStateJs (jsStep env cfg st)).pages = st.pages ∨
      ∃ pr : PageResult, pr.page_number = st.page_count + 1 ∧
        (stepStateJs (jsStep env cfg st)).pages = st.pages ++ [pr]) := by
  simp only [jsStep]
  split
  · exact ⟨rfl, Or.inl rfl⟩
  · split
    · have h := jsNavClick_state env st.page_count { st with page_count := st.page_count + 1 }
      exact ⟨h.2, Or.inl h.1⟩
    · split
      · split
        · exact ⟨rfl, Or.inl rfl⟩
        · have h := jsNavClick_state env st.page_count
            { st with
              page_count := st.page_count + 1
              consecutive_same_content := st.consecutive_same_content + 1
              pages := st.pages ++
                [jsPage cfg (st.page_count + 1) (env.pageText st.page_count)
                  (env.pageLinks st.page_count)] }
          exact ⟨h.2, Or.inr ⟨_, rfl, h.1⟩⟩
      · have h := jsNavClick_state env st.page_count
          { st with
            page_count := st.page_count + 1
            consecutive_same_content := 0
            previous_content_hash := some (fingerprint (env.pageText st.page_count))
            pages := st.pages ++
              [jsPage cfg (st.page_count + 1) (env.pageText st.page_count)
                (env.pageLinks st.page_count)] }
        exact ⟨h.2, Or.inr ⟨_, rfl, h.1⟩⟩

lemma pagesInv_append {pages : List PageResult} {pr : PageResult} {c : Nat}
    (h : pagesInv pages c) (hpr : pr.page_number = c + 1) :
    pagesInv (pages ++ [pr]) (c + 1) := by
  obtain ⟨hch, hb⟩ := h
  constructor
  · rw [List.chain'_append]
    refine ⟨hch, List.chain'_singleton _, ?_⟩
    intro x hx y hy
    have hx' : x ∈ pages := List.mem_of_mem_getLast? hx
    have hy' : pr = y := by simpa using hy
    subst hy'
    have := (hb x hx').2
    omega
  · intro p hp
    rcases List.mem_append.mp hp with h | h
    · have := hb p h; omega
    · have : p = pr := by simpa using h
      subst this
      omega

lemma pagesInv_mono {pages : List PageResult} {c c' : Nat}
    (h : pagesInv pages c) (hc : c ≤ c') : pagesInv pages c' := by
  obtain ⟨hch, hb⟩ := h
  exact ⟨hch, fun p hp => ⟨(hb p hp).1, le_trans (hb p hp).2 hc⟩⟩

lemma jsRun_pagesInv (env : JsEnv) (cfg : JsConfig) :
    ∀ (fuel : Nat) (st : JsState), pagesInv st.pages st.page_count →
      pagesInv (jsRun env cfg fuel st).1.pages (jsRun env cfg fuel st).1.page_count := by
  intro fuel
  induction fuel with
  | zero => intro st h; exact h
  | succ fuel ih =>
    intro st h
    rw [jsRun]
    split
    · split
      · exact h
      · have hfacts := jsStep_state env cfg st
        rcases hst : jsStep env cfg st with st' | fin
        · rw [hst] at hfacts
          simp only [stepStateJs] at hfacts
          refine ih st' ?_
          rcases hfacts.2 with hp | ⟨pr, hpr, hp⟩
          · rw [hp, hfacts.1]
            exact pagesInv_mono h (Nat.le_succ _)
          · rw [hp, hfacts.1]
            exact pagesInv_append h hpr
        · rw [hst] at hfacts
          simp only [stepStateJs] at hfacts
          rcases hfacts.2 with hp | ⟨pr, hpr, hp⟩
          · rw [hp, hfacts.1]
            exact pagesInv_mono h (Nat.le_succ _)
          · rw [hp, hfacts.1]
            exact pagesInv_append h hpr
    · exact h

lemma jsRun_length (env : JsEnv) (cfg : JsConfig) :
    ∀ (fuel : Nat) (st : JsState),
      (jsRun env cfg fuel st).1.pages.length ≤
        st.pages.length + (maxPagesLimit cfg - st.page_count) := by
  intro fuel
  induction fuel with
  | zero => intro st; simp [jsRun]
  | succ fuel ih =>
    intro st
    rw [jsRun]
    split
    · next hguard =>
      split
      · simp
      · have hfacts := jsStep_state env cfg st
        rcases hst : jsStep env cfg st with st' | fin
        · rw [hst] at hfacts
          simp only [stepStateJs] at hfacts
          have hlen : st'.pages.length ≤ st.pages.length + 1 := by
            rcases hfacts.2 with hp | ⟨pr, _, hp⟩ <;> simp [hp]
          have hrec := ih st'
          have hpc := hfacts.1
          simp only [hst]
          omega
        · rw [hst] at hfacts
          simp only [stepStateJs] at hfacts
          have hlen : fin.1.pages.length ≤ st.pages.length + 1 := by
            rcases hfacts.2 with hp | ⟨pr, _, hp⟩ <;> simp [hp]
          simp only [hst]
          omega
    · simp

lemma urlStep_state (env : UrlEnv) (cfg : UrlConfig) (st : UrlState)
    (hq : st.queue ≠ []) :
    (stepStateUrl (urlStep env cfg st)).iteration = st.iteration + 1 ∧
    st.page_count ≤ (stepStateUrl (urlStep env cfg st)).page_count ∧
    ((stepStateUrl (urlStep env cfg st)).pages = st.pages ∨
      ∃ pr : PageResult,
        pr.page_number = st.page_count + 1 ∧
        (stepStateUrl (urlStep env cfg st)).page_count = st.page_count + 1 ∧
        (stepStateUrl (urlStep env cfg st)).pages = st.pages ++ [pr]) := by
  rcases hqe : st.queue with _ | ⟨url, rest⟩
  · exact absurd hqe hq
  · simp only [urlStep, hqe]
    by_cases hv : url ∈ st.visited
    · rw [if_pos hv]
      exact ⟨rfl, le_refl _, Or.inl rfl⟩
    · rw [if_neg hv]
      by_cases hlim :
          (cfg.has_pagination && decide (maxIter cfg < st.page_count + 1)) = true
      · rw [if_pos hlim]
        exact ⟨rfl, Nat.le_succ _, Or.inl rfl⟩
      · rw [if_neg hlim]
        rcases hl : env.load url with _ | page
        · exact ⟨rfl, Nat.le_succ _, Or.inl rfl⟩
        · dsimp only
          by_cases he :
              (extract_text_with_inline_links page.nodes cfg.include_links
                (some url)).text = ""
          · rw [if_pos he]
            exact ⟨rfl, Nat.le_succ _, Or.inl rfl⟩
          · rw [if_neg he]
            exact ⟨rfl, Nat.le_succ _,
              Or.inr ⟨⟨url, st.page_count + 1,
                (extract_text_with_inline_links page.nodes cfg.include_links
                  (some url)).text,
                (extract_text_with_inline_links page.nodes cfg.include_links
                  (some url)).links⟩, rfl, rfl, rfl⟩⟩

lemma urlRun_pagesInv (env : UrlEnv) (cfg : UrlConfig) :
    ∀ (fuel : Nat) (st : UrlState), pagesInv st.pages st.page_count →
      pagesInv (urlRun env cfg fuel st).1.pages
        (urlRun env cfg fuel st).1.page_count := by
  intro fuel
  induction fuel with
  | zero => intro st h; exact h
  | succ fuel ih =>
    intro st h
    rw [urlRun]
    split
    · exact h
    · split
      · exact h
      · split
        · exact h
        · next hq _ _ =>
          have hfacts := urlStep_state env cfg st hq
          rcases hst : urlStep env cfg st with st' | fin
          · rw [hst] at hfacts
            simp only [stepStateUrl] at hfacts
            refine ih st' ?_
            rcases hfacts.2.2 with hp | ⟨pr, hpr, hpc, hp⟩
            · rw [hp]
              exact pagesInv_mono h hfacts.2.1
            · rw [hp, hpc]
              exact pagesInv_append h hpr
          · rw [hst] at hfacts
            simp only [stepStateUrl] at hfacts
            rcases hfacts.2.2 with hp | ⟨pr, hpr, hpc, hp⟩
            · rw [hp]
              exact pagesInv_mono h hfacts.2.1
            · rw [hp, hpc]
              exact pagesInv_append h hpr

lemma urlRun_length (env : UrlEnv) (cfg : UrlConfig) :
    ∀ (fuel : Nat) (st : UrlState),
      (urlRun env cfg fuel st).1.pages.length ≤
        st.pages.length + (maxIter cfg - st.iteration) := by
  intro fuel
  induction fuel with
  | zero => intro st; simp [urlRun]
  | succ fuel ih =>
    intro st
    rw [urlRun]
    split
    · simp
    · split
      · simp
      · split
        · simp
        · next hq hit _ =>
          have hfacts := urlStep_state env cfg st hq
          rcases hst : urlStep env cfg st with st' | fin
          · rw [hst] at hfacts
            simp only [stepStateUrl] at hfacts
            have hlen : st'.pages.length ≤ st.pages.length + 1 := by
              rcases hfacts.2.2 with hp | ⟨pr, _, _, hp⟩ <;> simp [hp]
            have hrec := ih st'
            have hit' : ¬ maxIter cfg ≤ st.iteration := hit
            have hiter := hfacts.1
            simp only [hst]
            omega
          · rw [hst] at hfacts
            simp only [stepStateUrl] at hfacts
            have hlen : fin.1.pages.length ≤ st.pages.length + 1 := by
              rcases hfacts.2.2 with hp | ⟨pr, _, _, hp⟩ <;> simp [hp]
            have hit' : ¬ maxIter cfg ≤ st.iteration := hit
            simp only [hst]
            omega

/-- C2.  Page caps: with `has_pagination = true` at most `max_pages` pages
are appended, and with `has_pagination = false` at most the fixed safety
ceiling of 1000 pages, in both the control-driven and the URL-addressable
traversal. -/
theorem traversal_page_cap (jenv : JsEnv) (jcfg : JsConfig)
    (uenv : UrlEnv) (ucfg : UrlConfig) :
    ((jcfg.has_pagination = true →
        (extract_with_js_pagination jenv jcfg).1.length ≤ jcfg.max_pages) ∧
      (jcfg.has_pagination = false →
        (extract_with_js_pagination jenv jcfg).1.length ≤ 1000)) ∧
    ((ucfg.has_pagination = true →
        (extract_all_pages_recursive uenv ucfg).1.length ≤ ucfg.max_pages) ∧
      (ucfg.has_pagination = false →
        (extract_all_pages_recursive uenv ucfg).1.length ≤ 1000)) := by
  have hj : (extract_with_js_pagination jenv jcfg).1.length ≤ maxPagesLimit jcfg := by
    have := jsRun_length jenv jcfg (maxPagesLimit jcfg)
      { page_count := 0, pages := [], consecutive_no_next := 0,
        previous_content_hash := none, consecutive_same_content := 0 }
    simpa [extract_with_js_pagination] using this
  have hu : (extract_all_pages_recursive uenv ucfg).1.length ≤ maxIter ucfg := by
    have := urlRun_length uenv ucfg (maxIter ucfg)
      { pages := [], visited := [], queue := [ucfg.start_url], page_count := 0,
        iteration := 0 }
    simpa [extract_all_pages_recursive] using this
  refine ⟨⟨?_, ?_⟩, ?_, ?_⟩
  · intro h; rwa [maxPagesLimit, h, if_pos rfl] at hj
  · intro h; rwa [maxPagesLimit, h] at hj
  · intro h; rwa [maxIter, h, if_pos rfl] at hu
  · intro h; rwa [maxIter, h] at hu

/-- Witness for C2: concrete capped runs in both modes stay within their
requested caps. -/
theorem traversal_page_cap_witness :
    (extract_with_js_pagination envStall cfgStall).1.length ≤ 5 ∧
    (extract_all_pages_recursive uenvNone ucfgSmall).1.length ≤ 3 :=
  ⟨(traversal_page_cap envStall cfgStall uenvNone ucfgSmall).1.1 rfl,
   (traversal_page_cap envStall cfgStall uenvNone ucfgSmall).2.1 rfl⟩

/-- C3 (amended).  In both traversal modes the `page_number` fields of the
appended results form a strictly increasing sequence of integers `≥ 1`
(failed loads and empty extractions consume a page number, so the sequence
can skip values and need not start at 1). -/
theorem traversal_page_numbers (jenv : JsEnv) (jcfg : JsConfig)
    (uenv : UrlEnv) (ucfg : UrlConfig) :
    (List.Chain' (fun a b => a < b)
        ((extract_with_js_pagination jenv jcfg).1.map fun p => p.page_number) ∧
      (((extract_with_js_pagination jenv jcfg).1.map fun p => p.page_number).all
        fun n => decide (1 ≤ n)) = true) ∧
    (List.Chain' (fun a b => a < b)
        ((extract_all_pages_recursive uenv ucfg).1.map fun p => p.page_number) ∧
      (((extract_all_pages_recursive uenv ucfg).1.map fun p => p.page_number).all
        fun n => decide (1 ≤ n)) = true) := by
  have hj := jsRun_pagesInv jenv jcfg (maxPagesLimit jcfg)
    { page_count := 0, pages := [], consecutive_no_next := 0,
      previous_content_hash := none, consecutive_same_content := 0 }
    ⟨List.chain'_nil, by intro p hp; exact absurd hp (List.not_mem_nil p)⟩
  have hu := urlRun_pagesInv uenv ucfg (maxIter ucfg)
    { pages := [], visited := [], queue := [ucfg.start_url], page_count := 0,
      iteration := 0 }
    ⟨List.chain'_nil, by intro p hp; exact absurd hp (List.not_mem_nil p)⟩
  constructor
  · constructor
    · rw [List.chain'_map]
      exact hj.1
    · rw [List.all_eq_true]
      intro n hn
      obtain ⟨p, hp, rfl⟩ := List.mem_map.mp hn
      exact decide_eq_true ((hj.2 p hp).1)
  · constructor
    · rw [List.chain'_map]
      exact hu.1
    · rw [List.all_eq_true]
      intro n hn
      obtain ⟨p, hp, rfl⟩ := List.mem_map.mp hn
      exact decide_eq_true ((hu.2 p hp).1)

/-- Witness for C3 (amended): the gap run's page numbers `[2, 4]` are
strictly increasing and positive. -/
theorem traversal_page_numbers_witness :
    (List.Chain' (fun a b => a < b)
        ((extract_with_js_pagination envGap cfgGap).1.map fun p => p.page_number) ∧
      (((extract_with_js_pagination envGap cfgGap).1.map fun p => p.page_number).all
        fun n => decide (1 ≤ n)) = true) ∧
    (List.Chain' (fun a b => a < b)
        ((extract_all_pages_recursive uenvNone ucfgSmall).1.map fun p => p.page_number) ∧
      (((extract_all_pages_recursive uenvNone ucfgSmall).1.map fun p => p.page_number).all
        fun n => decide (1 ≤ n)) = true) :=
  traversal_page_numbers envGap cfgGap uenvNone ucfgSmall

set_option maxRecDepth 8000 in
/-- C3 counterexample.  A control-driven run whose first and third
snapshots extract empty text appends page numbers `[2, 4]`: not gapless
and not starting at 1, refuting the claim as stated. -/
theorem page_numbers_gap :
    ((extract_with_js_pagination envGap cfgGap).1.map fun p => p.page_number) =
      [2, 4] ∧
    ((extract_with_js_pagination envGap cfgGap).1.map fun p => p.page_number) ≠
      List.range' 1 (extract_with_js_pagination envGap cfgGap).1.length := by
  refine ⟨by decide, by decide⟩

set_option maxRecDepth 8000 in
/-- C1.  The duplicate guard of the control-driven loop never fires while
clicks succeed: `consecutive_same_content` is reset to 0 after every
successful click (line 1039), so a session whose next-click silently
no-ops keeps appending identical pages up to the cap and stops with the
page limit, not with the content-stable reason. -/
theorem duplicate_guard_never_fires :
    (extract_with_js_pagination envStall cfgStall).2 = .limitReached ∧
    (extract_with_js_pagination envStall cfgStall).2 ≠ .contentStable ∧
    ((extract_with_js_pagination envStall cfgStall).1.map fun p => p.text) =
      ["Same page text", "Same page text", "Same page text", "Same page text",
       "Same page text"] := by
  refine ⟨by decide, by decide, by decide⟩

/-- C7.  Cancellation: observed at the very first check it yields an empty
result with reason cancelled, in both modes; observed mid-traversal, the
loop returns exactly the pages collected so far (the state's page list),
never discarding them. -/
theorem cancellation_partial_results :
    (∀ (jenv : JsEnv) (jcfg : JsConfig),
        jenv.cancelled 0 = true → 0 < maxPagesLimit jcfg →
        extract_with_js_pagination jenv jcfg = ([], .cancelled)) ∧
    (∀ (uenv : UrlEnv) (ucfg : UrlConfig),
        uenv.cancelled 0 = true → 0 < maxIter ucfg →
        extract_all_pages_recursive uenv ucfg = ([], .cancelled)) ∧
    (∀ (jenv : JsEnv) (jcfg : JsConfig) (fuel : Nat) (st : JsState),
        st.page_count < maxPagesLimit jcfg →
        jenv.cancelled st.page_count = true →
        jsRun jenv jcfg (fuel + 1) st = (st, .cancelled)) ∧
    (∀ (uenv : UrlEnv) (ucfg : UrlConfig) (fuel : Nat) (st : UrlState),
        st.queue ≠ [] → st.iteration < maxIter ucfg →
        uenv.cancelled st.iteration = true →
        urlRun uenv ucfg (fuel + 1) st = (st, .cancelled)) := by
  have hjs : ∀ (jenv : JsEnv) (jcfg : JsConfig) (fuel : Nat) (st : JsState),
      st.page_count < maxPagesLimit jcfg →
      jenv.cancelled st.page_count = true →
      jsRun jenv jcfg (fuel + 1) st = (st, .cancelled) := by
    intro jenv jcfg fuel st h1 h2
    rw [jsRun, if_pos h1, if_pos h2]
  have hurl : ∀ (uenv : UrlEnv) (ucfg : UrlConfig) (fuel : Nat) (st : UrlState),
      st.queue ≠ [] → st.iteration < maxIter ucfg →
      uenv.cancelled st.iteration = true →
      urlRun uenv ucfg (fuel + 1) st = (st, .cancelled) := by
    intro uenv ucfg fuel st h1 h2 h3
    rw [urlRun, if_neg h1, if_neg (by omega), if_pos h3]
  refine ⟨?_, ?_, hjs, hurl⟩
  · intro jenv jcfg hc hm
    obtain ⟨k, hk⟩ := Nat.exists_eq_succ_of_ne_zero (Nat.pos_iff_ne_zero.mp hm)
    unfold extract_with_js_pagination
    rw [hk]
    rw [hjs jenv jcfg k _ (by rw [← hk] at *; exact hm) hc]
  · intro uenv ucfg hc hm
    obtain ⟨k, hk⟩ := Nat.exists_eq_succ_of_ne_zero (Nat.pos_iff_ne_zero.mp hm)
    unfold extract_all_pages_recursive
    rw [hk]
    rw [hurl uenv ucfg k _ (by simp) (by rw [← hk] at *; exact hm) hc]

/-- Witness for C7: concrete cancelled runs, empty at the first check and
preserving the one already-collected page mid-traversal. -/
theorem cancellation_partial_results_witness :
    extract_with_js_pagination envCancel cfgCancel = ([], .cancelled) ∧
    extract_all_pages_recursive uenvCancel ucfgCancel = ([], .cancelled) ∧
    jsRun envCancel cfgCancel 1 stPartialJs = (stPartialJs, .cancelled) ∧
    urlRun uenvCancel ucfgCancel 1 stPartialUrl = (stPartialUrl, .cancelled) :=
  ⟨cancellation_partial_results.1 envCancel cfgCancel rfl (by decide),
   cancellation_partial_results.2.1 uenvCancel ucfgCancel rfl (by decide),
   cancellation_partial_results.2.2.1 envCancel cfgCancel 0 stPartialJs
     (by decide) rfl,
   cancellation_partial_results.2.2.2 uenvCancel ucfgCancel 0 stPartialUrl
     (by decide) (by decide) rfl⟩

end HtmlExtractor
